import Mathlib

/-!
Verification of the parallel sheet-to-ebook pipeline.

This file embeds the core of the pipeline in Lean 4:
strings are `List Char`, the Google-Sheets reader and the ReportLab /
PyPDF2 rendering primitives are abstracted as function parameters, and
every fallible step returns `Option`.  The embedded functions follow the
Python sources `src/content_processor.py`, `src/thread_manager.py`,
`src/pdf_generator.py`, `src/style_manager.py`, `src/pdf_merger.py` and
`main.py` line by line; each definition's doc comment names the function
it embeds.
-/

set_option maxHeartbeats 1000000

namespace VEbook

/-! ## Python string primitives -/

/-- One step of Python's `str.replace(old, new)`: left-to-right,
non-overlapping.  The `Nat` argument counts pattern characters still to be
skipped after a match (`p.length - 1` of them, the head having been consumed
when the match was found).  Intended for non-empty patterns `p`, which is the
case for every entry of the replacement table below. -/
def replAux (p r : List Char) : Nat → List Char → List Char
  | _, [] => []
  | n+1, _ :: t => replAux p r n t
  | 0, c :: t =>
    if p.isPrefixOf (c :: t) then r ++ replAux p r (p.length - 1) t
    else c :: replAux p r 0 t

/-- Python `text.replace(p, r)` for a non-empty pattern `p`. -/
def pyReplace (p r t : List Char) : List Char := replAux p r 0 t

/-- Whitespace characters stripped by Python's `str.strip()` (the ASCII
fragment; the claims only involve these). -/
def isPyWS (c : Char) : Bool :=
  c = ' ' || c = '\t' || c = '\n' || c = '\r' || c = '\x0b' || c = '\x0c'

/-- Python `str.strip()`: remove leading and trailing whitespace. -/
def pyStrip (t : List Char) : List Char :=
  ((t.dropWhile isPyWS).reverse.dropWhile isPyWS).reverse

/-- Python `str.lower()` (ASCII case folding; sufficient here because no
settled claim depends on lowering a non-ASCII character). -/
def pyLower (t : List Char) : List Char := t.map Char.toLower

/-- Python `str.isupper()`: at least one cased character and no lowercase
cased character (cased = ASCII letter in this model). -/
def pyIsUpper (t : List Char) : Bool :=
  t.any (fun c => c.isUpper || c.isLower) && t.all (fun c => !c.isLower)

/-! ## Content processor (`src/content_processor.py`) -/

/-- The apostrophe character `'`. -/
def apos : Char := Char.ofNat 39

/-- The second key of the `replacements` dict literal in
`clean_vietnamese_text`.  In the source file the intended curly-quote
entries were ASCII-fied, so lines 29-30 read `''': "'",` twice; Python lexes
the three consecutive single quotes as the start of a triple-quoted string,
making the actual dict key the 19-character string
`: "'",` + newline + 12 spaces (and the value a single apostrophe). -/
def weirdKey : List Char :=
  [':', ' ', '"', apos, '"', ','] ++ '\n' :: List.replicate 12 ' '

/-- The `replacements` dict of `clean_vietnamese_text` as Python actually
parses it, in insertion order: the two `'"': '"'` entries collapse to the
single no-op entry `"` ↦ `"`, then the triple-quote artifact `weirdKey` ↦
`'`, then en-dash ↦ em-dash, `...` ↦ `…`, and double space ↦ space. -/
def replacementTable : List (List Char × List Char) :=
  [ (['"'], ['"']),
    (weirdKey, [apos]),
    (['–'], ['—']),
    (['.', '.', '.'], ['…']),
    ([' ', ' '], [' ']) ]

/-- `ContentProcessor.clean_vietnamese_text`: apply each replacement of the
table in order, then strip.  (The leading `unicodedata.normalize('NFC', …)`
is the identity on every string considered in this development — all
replacement patterns, replacement values and concrete inputs used below are
NFC-normal — and is therefore not represented.) -/
def cleanVietnameseText (text : List Char) : List Char :=
  pyStrip (replacementTable.foldl (fun acc e => pyReplace e.1 e.2 acc) text)

/-- The four content types `detect_content_type` can return. -/
inductive PyContentType where
  | empty
  | dialog
  | header
  | paragraph
deriving DecidableEq, Repr

/-- The keyword list `['chương', 'phần', 'mục']` of `detect_content_type`. -/
def headerKeywords : List (List Char) :=
  [['c', 'h', 'ư', 'ơ', 'n', 'g'], ['p', 'h', 'ầ', 'n'], ['m', 'ụ', 'c']]

/-- `ContentProcessor.detect_content_type`: empty for falsy input, then
dialog if the stripped text contains `"` or starts with `"` or `—`, then
header if shorter than 100 and (isupper or containing a chapter keyword),
else paragraph. -/
def detectContentType (text : List Char) : PyContentType :=
  if text.isEmpty then .empty
  else
    let textClean := pyStrip text
    if textClean.contains '"' || List.isPrefixOf ['"'] textClean
        || List.isPrefixOf ['—'] textClean then .dialog
    else if textClean.length < 100
        && (pyIsUpper textClean
            || headerKeywords.any (fun k => decide (k <:+: pyLower textClean))) then
      .header
    else .paragraph

/-- `ContentProcessor.paragraph_min_length` (set to 10 in `__init__`). -/
def paragraphMinLength : Nat := 10

/-- One processed block: the dict
`{'type': …, 'content': …, 'original_index': i, 'original_length': …}`
built by `process_sheet_content`. -/
structure ContentBlock where
  type : PyContentType
  content : List Char
  originalIndex : Nat
  originalLength : Nat
deriving DecidableEq, Repr

/-- `ContentProcessor.process_sheet_content`: enumerate the raw rows, skip
falsy or whitespace-only rows, clean, drop rows whose cleaned text is
shorter than `paragraph_min_length`, classify the rest. -/
def processSheetContent (rawContentList : List (List Char)) : List ContentBlock :=
  rawContentList.enum.filterMap fun ie =>
    if ie.2.isEmpty || (pyStrip ie.2).isEmpty then none
    else
      let cleaned := cleanVietnameseText ie.2
      if cleaned.length < paragraphMinLength then none
      else some ⟨detectContentType cleaned, cleaned, ie.1, ie.2.length⟩

/-! ## Thread manager (`src/thread_manager.py`) -/

/-- Python's `x or d` for an optional integer (`os.cpu_count()` may return
`None`; `0` is falsy). -/
def pyOrNat : Option Nat → Nat → Nat
  | none, d => d
  | some 0, d => d
  | some (n+1), _ => n + 1

/-- `ThreadManager.__init__`: `max_workers` is taken verbatim when given,
otherwise `min(os.cpu_count() or 4, 6)`. -/
def threadManagerMaxWorkers (maxWorkers : Option Nat) (cpuCount : Option Nat) : Nat :=
  match maxWorkers with
  | some n => n
  | none => min (pyOrNat cpuCount 4) 6

/-- The methods defined in the body of `class ThreadManager`
(`src/thread_manager.py` lines 12-52): `__init__` and
`process_sheets_parallel` only. -/
def threadManagerMethods : List String := ["__init__", "process_sheets_parallel"]

/-- Python attribute lookup on a `ThreadManager` instance: a method exists
iff the class body defines it. -/
def threadManagerHasMethod (name : String) : Bool := threadManagerMethods.contains name

/-- The `future_to_sheet` dict of `process_sheets_parallel`: one
`executor.submit` call per element of `sheets` (each call returns a fresh
`Future`, modelled by its submission index), mapped to its sheet name.
Duplicate sheet names therefore submit separate tasks. -/
def futureToSheet (sheets : List String) : List (Nat × String) := sheets.enum

/-- The scheduler's result mapping: a Python dict kept as an insertion-
ordered association list with unique keys. -/
abbrev ResultsDict := List (String × List Char)

/-- Python `d[k] = v` on an insertion-ordered dict: overwrite in place when
the key is present, append otherwise. -/
def dictInsert (m : ResultsDict) (k : String) (v : List Char) : ResultsDict :=
  if m.any (fun e => e.1 == k) then m.map (fun e => if e.1 == k then (k, v) else e)
  else m ++ [(k, v)]

/-- The body of the `as_completed` loop for one completed future: record
`results[sheet_name] = result` when `result` is truthy (`if result:`);
a falsy result or a raised exception (including a timeout of
`future.result(timeout=300)`) only logs and records nothing.  A task whose
exception (or timeout) is caught is modelled by `r = none`. -/
def recordResult (m : ResultsDict) (sheetName : String) (r : Option (List Char)) :
    ResultsDict :=
  match r with
  | some v => if v.isEmpty then m else dictInsert m sheetName v
  | none => m

/-- Whether the `if result:` test of the collection loop passes. -/
def truthyResult : Option (List Char) → Bool
  | some v => !v.isEmpty
  | none => false

/-- The aggregation of `process_sheets_parallel`: fold the completed futures
in completion order (`completionOrder`, a permutation of the submitted
sheet-name list) into the results dict. -/
def collectResults (proc : String → Option (List Char)) (completionOrder : List String) :
    ResultsDict :=
  completionOrder.foldl (fun m s => recordResult m s (proc s)) []

/-- Outcome of `ThreadManager.process_sheets_parallel`: whether a
`ThreadPoolExecutor` was created, and the returned results dict. -/
structure RunAllOutcome where
  poolCreated : Bool
  results : ResultsDict
deriving DecidableEq, Repr

/-- `ThreadManager.process_sheets_parallel`: empty sheet list returns `{}`
immediately (no pool); otherwise one task per list element is submitted and
the results dict is aggregated in completion order.  `proc` is the
(deterministic) per-sheet task; `completionOrder` is the order in which
`as_completed` yields the futures. -/
def processSheetsParallel (sheets : List String) (proc : String → Option (List Char))
    (completionOrder : List String) : RunAllOutcome :=
  if sheets.isEmpty then ⟨false, []⟩
  else ⟨true, collectResults proc completionOrder⟩

/-- `process_single_sheet` (module level, `src/thread_manager.py` lines
54-72): read column D, bail out with `None` on an empty read, process the
content, bail out with `None` when no block survives, else hand to the
generator.  The surrounding `try/except` converts any raised exception into
`None`; a reader that raises past its retry budget returns `[]`
(`sheets_reader.read_column_d`), and a generator failure is `gen … = none`. -/
def processSingleSheet (readColumnD : String → List (List Char))
    (generateSheetPdf : String → List ContentBlock → Option (List Char))
    (sheetName : String) : Option (List Char) :=
  let rawContent := readColumnD sheetName
  if rawContent.isEmpty then none
  else
    let contentBlocks := processSheetContent rawContent
    if contentBlocks.isEmpty then none
    else generateSheetPdf sheetName contentBlocks

/-! ## Style manager (`src/style_manager.py`) -/

/-- The fields of a ReportLab `ParagraphStyle` that
`_create_business_styles` sets.  `leftIndentCentiInch` is `leftIndent` in
hundredths of an inch (`0.25*inch` = 25). -/
structure PStyle where
  fontName : String
  fontSize : Nat
  leading : Nat
  alignment : String
  spaceAfter : Nat
  spaceBefore : Nat
  firstLineIndent : Nat
  leftIndentCentiInch : Nat
  textColor : String
  wordWrap : Option String
deriving DecidableEq, Repr

/-- The bold font name computed in `_create_business_styles`. -/
def boldFontName (baseFont : String) : String :=
  if baseFont ≠ "Helvetica" then baseFont ++ "-Bold" else "Helvetica-Bold"

/-- The italic font name computed in `_create_business_styles`. -/
def italicFontName (baseFont : String) : String :=
  if baseFont ≠ "Helvetica" then baseFont ++ "-Italic" else "Helvetica-Oblique"

/-- The `BusinessChapter` style. -/
def businessChapter (baseFont : String) : PStyle :=
  { fontName := boldFontName baseFont
    fontSize := 24
    leading := 30
    alignment := "TA_LEFT"
    spaceAfter := 24
    spaceBefore := 12
    firstLineIndent := 0
    leftIndentCentiInch := 0
    textColor := "#1a1a1a"
    wordWrap := none }

/-- The `BusinessBody` style. -/
def businessBody (baseFont : String) : PStyle :=
  { fontName := baseFont
    fontSize := 12
    leading := 16
    alignment := "TA_JUSTIFY"
    spaceAfter := 8
    spaceBefore := 0
    firstLineIndent := 0
    leftIndentCentiInch := 0
    textColor := "#1a1a1a"
    wordWrap := some "CJK" }

/-- The `BusinessDialog` style: `parent=BusinessBody` with left indent,
italic font and a different text colour. -/
def businessDialog (baseFont : String) : PStyle :=
  { businessBody baseFont with
    leftIndentCentiInch := 25
    fontName := italicFontName baseFont
    textColor := "#2a2a2a" }

/-- The `BusinessFirst` style: `parent=BusinessBody`, `spaceBefore=0`. -/
def businessFirst (baseFont : String) : PStyle :=
  { businessBody baseFont with spaceBefore := 0 }

/-- `BusinessStyleManager.get_style`: return the named business style, or
fall back to `BusinessBody` for an unknown name. -/
def getStyle (baseFont : String) (styleName : String) : PStyle :=
  if styleName = "BusinessChapter" then businessChapter baseFont
  else if styleName = "BusinessBody" then businessBody baseFont
  else if styleName = "BusinessDialog" then businessDialog baseFont
  else if styleName = "BusinessFirst" then businessFirst baseFont
  else businessBody baseFont

/-! ## PDF generator (`src/pdf_generator.py`) -/

/-- The style name `_build_story` chooses for a content block: dialog blocks
get `BusinessDialog`, every other block type gets `BusinessBody`. -/
def styleNameForBlockType (t : PyContentType) : String :=
  if t = .dialog then "BusinessDialog" else "BusinessBody"

/-- `BusinessPDFGenerator._is_chapter_title`. -/
def isChapterTitle (text : List Char) : Bool :=
  if text.isEmpty then false
  else
    [['c', 'h', 'ư', 'ơ', 'n', 'g'], ['c', 'h', 'a', 'p', 't', 'e', 'r'],
      ['p', 'h', 'ầ', 'n']].any (fun k => decide (k <:+: pyLower text))

/-- `BusinessPDFGenerator._build_story`: the chapter-title paragraph (styled
`BusinessChapter`) when the sheet name looks like a chapter title, then one
paragraph per content block with non-blank content, styled by
`styleNameForBlockType`.  Each story entry is (paragraph text, style
object); `Spacer` entries carry no text or style and are not represented. -/
def buildStory (baseFont : String) (sheetName : List Char) (contentBlocks : List ContentBlock) :
    List (List Char × PStyle) :=
  (if isChapterTitle sheetName then [(sheetName, getStyle baseFont "BusinessChapter")] else [])
    ++ contentBlocks.filterMap fun block =>
      if (pyStrip block.content).isEmpty then none
      else some (block.content, getStyle baseFont (styleNameForBlockType block.type))

/-! ## PDF merger (`src/pdf_merger.py`) -/

/-- `BusinessPDFMerger._extract_chapter_name`: basename of the path, drop
the extension after the last dot, map underscores to spaces. -/
def extractChapterName (pdfFile : List Char) : List Char :=
  let filename := (pdfFile.reverse.takeWhile (fun c => c ≠ '/')).reverse
  let stem :=
    if filename.contains '.' then
      ((filename.reverse.dropWhile (fun c => c ≠ '.')).drop 1).reverse
    else filename
  stem.map fun c => if c = '_' then ' ' else c

/-- `BusinessPDFMerger.merge_sheets_to_ebook`, projected to the data the
claims are about: `None` when the input list is empty or no listed file
exists, else the ordered list of chapter (outline) names appended to the
merger, one per existing input file, in input order.  (The `merger.write`
I/O and its `except` branch are outside the model; no settled claim
depends on them.) -/
def mergeSheetsToEbook (fileExists : List Char → Bool) (pdfFiles : List (List Char)) :
    Option (List (List Char)) :=
  if pdfFiles.isEmpty then none
  else
    let existingFiles := pdfFiles.filter fileExists
    if existingFiles.isEmpty then none
    else some (existingFiles.map extractChapterName)

/-- `BusinessPDFMerger.validate_ebook`: the file exists and is non-empty. -/
def validateEbook (ebookExists : Bool) (ebookSize : Nat) : Bool :=
  ebookExists && decide (0 < ebookSize)

/-- A value of the statistics dict returned by `get_ebook_stats`. -/
inductive StatVal where
  | nat (n : Nat)
  | str (s : String)
deriving DecidableEq, Repr

/-- `BusinessPDFMerger.get_ebook_stats`: `None` when validation fails;
the full five-key dict when `PdfReader` introspection succeeds
(`numPagesIntro = some p`); the three-key fallback dict (no `file_size_mb`,
no `title`) when introspection raises.  Sizes are kept as integer
hundredths (`round(x, 2)` of KB resp. MB). -/
def getEbookStats (ebookPath : String) (ebookExists : Bool) (ebookSize : Nat)
    (numPagesIntro : Option Nat) : Option (List (String × StatVal)) :=
  if !(validateEbook ebookExists ebookSize) then none
  else
    match numPagesIntro with
    | some p =>
        some [("file_path", .str ebookPath),
              ("file_size_kb", .nat (ebookSize * 100 / 1024)),
              ("file_size_mb", .nat (ebookSize * 100 / (1024 * 1024))),
              ("num_pages", .nat p),
              ("title", .str "Vietnamese Business Ebook")]
    | none =>
        some [("file_path", .str ebookPath),
              ("file_size_kb", .nat (ebookSize * 100 / 1024)),
              ("num_pages", .str "Unknown")]

/-! ## Main (`main.py`) -/

/-- The PDF list main prepares for merging (`main.py` lines 212-216):
iterate `sheets_to_process` in the requested order and keep
`results[sheet_name]` when the key is present and its value truthy. -/
def preparePdfFiles (sheetsToProcess : List String) (results : ResultsDict) :
    List (List Char) :=
  sheetsToProcess.filterMap fun sheetName =>
    match List.lookup sheetName results with
    | some v => if v.isEmpty then none else some v
    | none => none

/-- The value main's merge-preparation loop keeps for one sheet, as a
function of the task outcome: the path when the task returned a truthy
(non-`None`, non-empty) result, nothing otherwise. -/
def truthyOpt : Option (List Char) → Option (List Char)
  | some v => if v.isEmpty then none else some v
  | none => none

/-- The success summary of `main` (lines 254-265): it unconditionally
indexes `ebook_stats['num_pages']`, `ebook_stats['file_size_mb']` and
`ebook_stats['title']`; a missing key raises `KeyError`, which the
surrounding `except Exception` turns into exit code 1, else `main`
returns 0. -/
def mainSummaryExit (stats : List (String × StatVal)) : Nat :=
  if ((List.lookup "num_pages" stats).isSome
      && (List.lookup "file_size_mb" stats).isSome
      && (List.lookup "title" stats).isSome) then 0 else 1

/-- The body of `main` after setup validation, as an exit code
(`main.py` lines 184-275).  Steps in source order: empty sheet list exits 1;
with more than one sheet `main` calls
`thread_manager.estimate_processing_time(…)` (line 192) — an attribute the
`ThreadManager` class does not define, so the call raises `AttributeError`,
caught by the outer `except Exception` (line 273) giving exit 1; otherwise
run the scheduler, exit 1 on an empty results dict, on no mergeable PDF, on
merge failure or on failed validation; finally compute the statistics and
print the summary. -/
def mainRun (sheetsToProcess : List String) (proc : String → Option (List Char))
    (completionOrder : List String) (fileExists : List Char → Bool)
    (mergedPath : String) (mergedExists : Bool) (mergedSize : Nat)
    (numPagesIntro : Option Nat) : Nat :=
  if sheetsToProcess.isEmpty then 1
  else if 1 < sheetsToProcess.length
      ∧ threadManagerHasMethod "estimate_processing_time" = false then 1
  else
    let results := (processSheetsParallel sheetsToProcess proc completionOrder).results
    if results.isEmpty then 1
    else
      let pdfFiles := preparePdfFiles sheetsToProcess results
      if pdfFiles.isEmpty then 1
      else
        match mergeSheetsToEbook fileExists pdfFiles with
        | none => 1
        | some _ =>
          if !(validateEbook mergedExists mergedSize) then 1
          else
            match getEbookStats mergedPath mergedExists mergedSize numPagesIntro with
            | none => 1
            | some stats => mainSummaryExit stats

/-! ## Lemmas about `pyReplace` -/

theorem replAux_nil (p r : List Char) (n : Nat) : replAux p r n [] = [] := by
  cases n <;> rfl

theorem replAux_succ (p r : List Char) (n : Nat) (c : Char) (t : List Char) :
    replAux p r (n + 1) (c :: t) = replAux p r n t := rfl

theorem replAux_zero (p r : List Char) (c : Char) (t : List Char) :
    replAux p r 0 (c :: t) =
      if p.isPrefixOf (c :: t) then r ++ replAux p r (p.length - 1) t
      else c :: replAux p r 0 t := rfl

theorem replAux_eq_drop (p r : List Char) : ∀ (n : Nat) (t : List Char),
    replAux p r n t = replAux p r 0 (t.drop n)
  | 0, _ => by rw [List.drop_zero]
  | n + 1, [] => by rw [replAux_nil, List.drop_nil, replAux_nil]
  | n + 1, c :: t => by rw [replAux_succ, List.drop_succ_cons, replAux_eq_drop p r n t]

theorem pyReplace_nil (p r : List Char) : pyReplace p r [] = [] := rfl

theorem pyReplace_cons_neg {p : List Char} (r : List Char) {c : Char} {t : List Char}
    (h : p.isPrefixOf (c :: t) = false) :
    pyReplace p r (c :: t) = c :: pyReplace p r t := by
  unfold pyReplace
  rw [replAux_zero, h]
  simp

theorem pyReplace_cons_pos {p : List Char} (r : List Char) {c : Char} {t : List Char}
    (h : p.isPrefixOf (c :: t) = true) :
    pyReplace p r (c :: t) = r ++ pyReplace p r (t.drop (p.length - 1)) := by
  unfold pyReplace
  rw [replAux_zero, h, replAux_eq_drop]
  simp

/-- Strong induction on the length of a character list, used because
`pyReplace` recurses past the matched pattern. -/
theorem length_induction {P : List Char → Prop}
    (H : ∀ t, (∀ u : List Char, u.length < t.length → P u) → P t) : ∀ t, P t := by
  have key : ∀ n, ∀ t : List Char, t.length ≤ n → P t := by
    intro n
    induction n with
    | zero =>
      intro t ht
      exact H t fun u hu => absurd (Nat.lt_of_lt_of_le hu ht) (Nat.not_lt_zero _)
    | succ n ih =>
      intro t ht
      exact H t fun u hu => ih u (Nat.le_of_lt_succ (Nat.lt_of_lt_of_le hu ht))
  exact fun t => key t.length t le_rfl

theorem pyReplace_single (a b : Char) : ∀ t : List Char,
    pyReplace [a] [b] t = t.map fun c => if c = a then b else c := by
  intro t
  induction t with
  | nil => rfl
  | cons c t ih =>
    by_cases hca : c = a
    · subst hca
      have hp : List.isPrefixOf [c] (c :: t) = true := by simp [List.isPrefixOf]
      rw [pyReplace_cons_pos _ hp]
      simp [ih]
    · have hp : List.isPrefixOf [a] (c :: t) = false := by
        simp [List.isPrefixOf]
        exact fun hac => hca hac.symm
      rw [pyReplace_cons_neg _ hp]
      simp [ih, hca]

theorem pyReplace_single_self (a : Char) (t : List Char) : pyReplace [a] [a] t = t := by
  rw [pyReplace_single]
  have h : (fun c => if c = a then a else c) = id := by
    funext c
    by_cases hc : c = a <;> simp [hc]
  rw [h, List.map_id]

theorem not_mem_pyReplace_single {a b : Char} (hab : b ≠ a) (t : List Char) :
    a ∉ pyReplace [a] [b] t := by
  rw [pyReplace_single]
  intro hmem
  rcases List.mem_map.mp hmem with ⟨x, -, hx⟩
  by_cases hxa : x = a
  · rw [if_pos hxa] at hx
    exact hab hx
  · rw [if_neg hxa] at hx
    exact hxa hx

theorem mem_pyReplace (p r : List Char) :
    ∀ t : List Char, ∀ x, x ∈ pyReplace p r t → x ∈ t ∨ x ∈ r := by
  refine length_induction ?_
  intro t ih x hx
  match t with
  | [] => rw [pyReplace_nil] at hx; cases hx
  | c :: t' =>
    cases hp : List.isPrefixOf p (c :: t') with
    | true =>
      rw [pyReplace_cons_pos _ hp] at hx
      rcases List.mem_append.mp hx with h | h
      · exact Or.inr h
      · rcases ih (t'.drop (p.length - 1))
            (by simp [List.length_drop]; omega) x h with h' | h'
        · exact Or.inl (List.mem_cons_of_mem c (List.mem_of_mem_drop h'))
        · exact Or.inr h'
    | false =>
      rw [pyReplace_cons_neg _ hp] at hx
      rcases List.mem_cons.mp hx with h | h
      · exact Or.inl (h ▸ List.mem_cons_self c t')
      · rcases ih t' (by simp) x h with h' | h'
        · exact Or.inl (List.mem_cons_of_mem c h')
        · exact Or.inr h'

theorem pyReplace_eq_self_of_not_occ {p : List Char} (r : List Char) :
    ∀ t : List Char, ¬ (p <:+: t) → pyReplace p r t = t := by
  intro t
  induction t with
  | nil => intro _; rfl
  | cons c t' ih =>
    intro h
    cases hp : List.isPrefixOf p (c :: t') with
    | true => exact absurd (List.isPrefixOf_iff_prefix.mp hp).isInfix h
    | false =>
      rw [pyReplace_cons_neg _ hp, ih fun hx => h (List.infix_cons hx)]

theorem singleton_infix_iff_mem {a : Char} {l : List Char} : [a] <:+: l ↔ a ∈ l := by
  constructor
  · intro h
    exact h.subset (List.mem_singleton_self a)
  · intro h
    rcases List.append_of_mem h with ⟨s, t, rfl⟩
    exact ⟨s, t, by simp⟩

/-! ## Lemmas about the `...` and double-space replacement passes -/

theorem prefix_single_of_pyReplace_dots {d : Char} (hd : d ≠ '…') :
    ∀ t : List Char, [d] <+: pyReplace ['.', '.', '.'] ['…'] t → [d] <+: t := by
  intro t h
  match t with
  | [] => rw [pyReplace_nil] at h; simpa using h
  | c :: t' =>
    cases hp : List.isPrefixOf ['.', '.', '.'] (c :: t') with
    | true =>
      rw [pyReplace_cons_pos _ hp] at h
      rcases List.cons_prefix_cons.mp h with ⟨rfl, -⟩
      exact absurd rfl hd
    | false =>
      rw [pyReplace_cons_neg _ hp] at h
      rcases List.cons_prefix_cons.mp h with ⟨rfl, -⟩
      exact List.cons_prefix_cons.mpr ⟨rfl, List.nil_prefix⟩

theorem prefix_pair_of_pyReplace_dots {d e : Char} (hd : d ≠ '…') (he : e ≠ '…') :
    ∀ t : List Char, [d, e] <+: pyReplace ['.', '.', '.'] ['…'] t → [d, e] <+: t := by
  intro t h
  match t with
  | [] => rw [pyReplace_nil] at h; simpa using h
  | c :: t' =>
    cases hp : List.isPrefixOf ['.', '.', '.'] (c :: t') with
    | true =>
      rw [pyReplace_cons_pos _ hp] at h
      rcases List.cons_prefix_cons.mp h with ⟨rfl, -⟩
      exact absurd rfl hd
    | false =>
      rw [pyReplace_cons_neg _ hp] at h
      rcases List.cons_prefix_cons.mp h with ⟨rfl, h2⟩
      exact List.cons_prefix_cons.mpr ⟨rfl, prefix_single_of_pyReplace_dots he t' h2⟩

theorem dots_prefix_structure {c : Char} {t' : List Char}
    (hp : List.isPrefixOf ['.', '.', '.'] (c :: t') = true) :
    c = '.' ∧ ∃ u, t' = '.' :: '.' :: u := by
  rcases List.isPrefixOf_iff_prefix.mp hp with ⟨u, hu⟩
  rcases List.cons.injEq .. ▸ hu with ⟨h1, h2⟩
  exact ⟨h1.symm, u, h2.symm⟩

theorem pyReplace_dots_cons (u : List Char) :
    pyReplace ['.', '.', '.'] ['…'] ('.' :: '.' :: '.' :: u) =
      '…' :: pyReplace ['.', '.', '.'] ['…'] u := by
  rw [pyReplace_cons_pos _ (by simp [List.isPrefixOf])]
  simp

theorem pyReplace_sp_cons_cons (u : List Char) :
    pyReplace [' ', ' '] [' '] (' ' :: ' ' :: u) = ' ' :: pyReplace [' ', ' '] [' '] u := by
  rw [pyReplace_cons_pos _ (by simp [List.isPrefixOf])]
  simp

theorem not_infix_dots_pyReplace_dots :
    ∀ t : List Char, ¬ (['.', '.', '.'] <:+: pyReplace ['.', '.', '.'] ['…'] t) := by
  refine length_induction ?_
  intro t ih h
  match t with
  | [] => rw [pyReplace_nil] at h; simp at h
  | c :: t' =>
    cases hp : List.isPrefixOf ['.', '.', '.'] (c :: t') with
    | true =>
      rcases dots_prefix_structure hp with ⟨rfl, u, rfl⟩
      rw [pyReplace_dots_cons] at h
      rcases List.infix_cons_iff.mp h with hpre | htail
      · exact absurd (List.cons_prefix_cons.mp hpre).1 (by decide)
      · exact ih u (by simp only [List.length_cons]; omega) htail
    | false =>
      rw [pyReplace_cons_neg _ hp] at h
      rcases List.infix_cons_iff.mp h with hpre | htail
      · rcases List.cons_prefix_cons.mp hpre with ⟨rfl, h2⟩
        have h3 : ['.', '.'] <+: t' :=
          prefix_pair_of_pyReplace_dots (by decide) (by decide) t' h2
        rcases h3 with ⟨u, hu⟩
        have h4 : List.isPrefixOf ['.', '.', '.'] ('.' :: t') = true := by
          rw [← hu]; simp [List.isPrefixOf]
        rw [h4] at hp; cases hp
      · exact ih t' (by simp) htail

theorem prefix_single_of_pyReplace_sp {d : Char} :
    ∀ t : List Char, [d] <+: pyReplace [' ', ' '] [' '] t → [d] <+: t := by
  intro t h
  match t with
  | [] => rw [pyReplace_nil] at h; simpa using h
  | c :: t' =>
    cases hp : List.isPrefixOf [' ', ' '] (c :: t') with
    | true =>
      rw [pyReplace_cons_pos _ hp] at h
      rcases List.cons_prefix_cons.mp h with ⟨rfl, -⟩
      have hc : (' ' : Char) = c := (List.cons_prefix_cons.mp (List.isPrefixOf_iff_prefix.mp hp)).1
      exact List.cons_prefix_cons.mpr ⟨hc, List.nil_prefix⟩
    | false =>
      rw [pyReplace_cons_neg _ hp] at h
      rcases List.cons_prefix_cons.mp h with ⟨rfl, -⟩
      exact List.cons_prefix_cons.mpr ⟨rfl, List.nil_prefix⟩

theorem prefix_pair_of_pyReplace_sp {d e : Char} (hd : d ≠ ' ') :
    ∀ t : List Char, [d, e] <+: pyReplace [' ', ' '] [' '] t → [d, e] <+: t := by
  intro t h
  match t with
  | [] => rw [pyReplace_nil] at h; simpa using h
  | c :: t' =>
    cases hp : List.isPrefixOf [' ', ' '] (c :: t') with
    | true =>
      rw [pyReplace_cons_pos _ hp] at h
      rcases List.cons_prefix_cons.mp h with ⟨rfl, -⟩
      exact absurd rfl hd
    | false =>
      rw [pyReplace_cons_neg _ hp] at h
      rcases List.cons_prefix_cons.mp h with ⟨rfl, h2⟩
      exact List.cons_prefix_cons.mpr ⟨rfl, prefix_single_of_pyReplace_sp t' h2⟩

theorem sp_prefix_structure {c : Char} {t' : List Char}
    (hp : List.isPrefixOf [' ', ' '] (c :: t') = true) :
    c = ' ' ∧ ∃ u, t' = ' ' :: u := by
  rcases List.isPrefixOf_iff_prefix.mp hp with ⟨u, hu⟩
  rcases List.cons.injEq .. ▸ hu with ⟨h1, h2⟩
  exact ⟨h1.symm, u, h2.symm⟩

theorem not_double_space_pyReplace_sp :
    ∀ t : List Char, ¬ ([' ', ' ', ' '] <:+: t) →
      ¬ ([' ', ' '] <:+: pyReplace [' ', ' '] [' '] t) := by
  refine length_induction ?_
  intro t ih h3 h
  match t with
  | [] => rw [pyReplace_nil] at h; simp at h
  | c :: t' =>
    cases hp : List.isPrefixOf [' ', ' '] (c :: t') with
    | true =>
      rcases sp_prefix_structure hp with ⟨rfl, u, rfl⟩
      rw [pyReplace_sp_cons_cons] at h
      rcases List.infix_cons_iff.mp h with hpre | htail
      · rcases List.cons_prefix_cons.mp hpre with ⟨-, h2⟩
        rcases prefix_single_of_pyReplace_sp u h2 with ⟨u', hu'⟩
        exact h3 ⟨[], u', by simp [← hu']⟩
      · have h5 : ¬ ([' ', ' ', ' '] <:+: u) := fun hx =>
          h3 (hx.trans (List.IsSuffix.isInfix ⟨[' ', ' '], rfl⟩ : u <:+: ' ' :: ' ' :: u))
        exact ih u (by simp only [List.length_cons]; omega) h5 htail
    | false =>
      rw [pyReplace_cons_neg _ hp] at h
      rcases List.infix_cons_iff.mp h with hpre | htail
      · rcases List.cons_prefix_cons.mp hpre with ⟨rfl, h2⟩
        rcases prefix_single_of_pyReplace_sp t' h2 with ⟨u, hu⟩
        have h4 : List.isPrefixOf [' ', ' '] (' ' :: t') = true := by
          rw [← hu]; simp [List.isPrefixOf]
        rw [h4] at hp; cases hp
      · exact ih t' (by simp) (fun hx => h3 (List.infix_cons hx)) htail

theorem infix_dots_of_pyReplace_sp :
    ∀ t : List Char, ['.', '.', '.'] <:+: pyReplace [' ', ' '] [' '] t →
      ['.', '.', '.'] <:+: t := by
  refine length_induction ?_
  intro t ih h
  match t with
  | [] => rw [pyReplace_nil] at h; simp at h
  | c :: t' =>
    cases hp : List.isPrefixOf [' ', ' '] (c :: t') with
    | true =>
      rcases sp_prefix_structure hp with ⟨rfl, u, rfl⟩
      rw [pyReplace_sp_cons_cons] at h
      rcases List.infix_cons_iff.mp h with hpre | htail
      · exact absurd (List.cons_prefix_cons.mp hpre).1 (by decide)
      · exact (ih u (by simp only [List.length_cons]; omega) htail).trans
          (List.IsSuffix.isInfix ⟨[' ', ' '], rfl⟩ : u <:+: ' ' :: ' ' :: u)
    | false =>
      rw [pyReplace_cons_neg _ hp] at h
      rcases List.infix_cons_iff.mp h with hpre | htail
      · rcases List.cons_prefix_cons.mp hpre with ⟨rfl, h2⟩
        exact (List.cons_prefix_cons.mpr
          ⟨rfl, prefix_pair_of_pyReplace_sp (by decide) t' h2⟩).isInfix
      · exact List.infix_cons (ih t' (by simp) htail)

theorem infix_spaces_of_pyReplace_dots :
    ∀ t : List Char, [' ', ' ', ' '] <:+: pyReplace ['.', '.', '.'] ['…'] t →
      [' ', ' ', ' '] <:+: t := by
  refine length_induction ?_
  intro t ih h
  match t with
  | [] => rw [pyReplace_nil] at h; simpa using h
  | c :: t' =>
    cases hp : List.isPrefixOf ['.', '.', '.'] (c :: t') with
    | true =>
      rcases dots_prefix_structure hp with ⟨rfl, u, rfl⟩
      rw [pyReplace_dots_cons] at h
      rcases List.infix_cons_iff.mp h with hpre | htail
      · exact absurd (List.cons_prefix_cons.mp hpre).1 (by decide)
      · exact (ih u (by simp only [List.length_cons]; omega) htail).trans
          (List.IsSuffix.isInfix ⟨['.', '.', '.'], rfl⟩ : u <:+: '.' :: '.' :: '.' :: u)
    | false =>
      rw [pyReplace_cons_neg _ hp] at h
      rcases List.infix_cons_iff.mp h with hpre | htail
      · rcases List.cons_prefix_cons.mp hpre with ⟨rfl, h2⟩
        exact (List.cons_prefix_cons.mpr
          ⟨rfl, prefix_pair_of_pyReplace_dots (by decide) (by decide) t' h2⟩).isInfix
      · exact List.infix_cons (ih t' (by simp) htail)

theorem prefix_spaces_map {f : Char → Char} (hf : ∀ c, f c = ' ' ↔ c = ' ') :
    ∀ (k : Nat) (t : List Char),
      List.replicate k ' ' <+: t.map f → List.replicate k ' ' <+: t := by
  intro k
  induction k with
  | zero => intro t _; simpa using List.nil_prefix
  | succ k ihk =>
    intro t h
    match t with
    | [] => simp at h
    | c :: t' =>
      rw [List.replicate_succ] at h ⊢
      rw [List.map_cons] at h
      rcases List.cons_prefix_cons.mp h with ⟨hc, h2⟩
      exact List.cons_prefix_cons.mpr ⟨(((hf c).mp hc.symm).symm : (' ' : Char) = c), ihk t' h2⟩

theorem infix_spaces_map {f : Char → Char} (hf : ∀ c, f c = ' ' ↔ c = ' ') (k : Nat) :
    ∀ t : List Char,
      List.replicate k ' ' <:+: t.map f → List.replicate k ' ' <:+: t := by
  intro t
  induction t with
  | nil => intro h; simpa using h
  | cons c t' ih =>
    intro h
    rw [List.map_cons] at h
    rcases List.infix_cons_iff.mp h with hpre | htail
    · exact (prefix_spaces_map hf k (c :: t') (by rw [List.map_cons]; exact hpre)).isInfix
    · exact List.infix_cons (ih htail)

/-! ## Lemmas about `pyStrip` -/

theorem head_dropWhile_false (p : Char → Bool) :
    ∀ (l : List Char) (c : Char) (u : List Char), l.dropWhile p = c :: u → p c = false := by
  intro l
  induction l with
  | nil => intro c u h; simp at h
  | cons a l ih =>
    intro c u h
    rw [List.dropWhile_cons] at h
    cases ha : p a with
    | true => rw [ha] at h; simp at h; exact ih c u h
    | false =>
      rw [ha] at h
      simp at h
      rcases h with ⟨h1, -⟩
      rw [← h1]; exact ha

theorem dropWhile_eq_self_of_heads {p : Char → Bool} {l : List Char}
    (h : ∀ c u, l = c :: u → p c = false) : l.dropWhile p = l := by
  cases l with
  | nil => rfl
  | cons c u =>
    rw [List.dropWhile_cons, h c u rfl]
    simp

theorem prefix_of_suffix_reverse {l₁ l₂ : List Char} (h : l₁ <:+ l₂.reverse) :
    l₁.reverse <+: l₂ := by
  rcases h with ⟨s, hs⟩
  refine ⟨s.reverse, ?_⟩
  have h2 := congrArg List.reverse hs
  rw [List.reverse_append, List.reverse_reverse] at h2
  exact h2

theorem pyStrip_occurs_in (t : List Char) : pyStrip t <:+: t := by
  unfold pyStrip
  have h1 : t.dropWhile isPyWS <:+ t := List.dropWhile_suffix _
  have h2 : (t.dropWhile isPyWS).reverse.dropWhile isPyWS <:+ (t.dropWhile isPyWS).reverse :=
    List.dropWhile_suffix _
  exact (prefix_of_suffix_reverse h2).isInfix.trans h1.isInfix

theorem pyStrip_pyStrip (t : List Char) : pyStrip (pyStrip t) = pyStrip t := by
  have hB : ∀ c u, (t.dropWhile isPyWS).reverse.dropWhile isPyWS = c :: u →
      isPyWS c = false := fun c u h => head_dropWhile_false isPyWS _ c u h
  conv_lhs => rw [pyStrip]
  have claim1 : (pyStrip t).dropWhile isPyWS = pyStrip t := by
    apply dropWhile_eq_self_of_heads
    intro c u h
    have hpre : pyStrip t <+: t.dropWhile isPyWS :=
      prefix_of_suffix_reverse (List.dropWhile_suffix _)
    rcases hpre with ⟨rest, hrest⟩
    rw [h] at hrest
    exact head_dropWhile_false isPyWS t c (u ++ rest) (by rw [← hrest]; simp)
  rw [claim1]
  have claim2 : (pyStrip t).reverse.dropWhile isPyWS = (pyStrip t).reverse := by
    rw [pyStrip, List.reverse_reverse]
    apply dropWhile_eq_self_of_heads
    intro c u h
    exact hB c u h
  rw [claim2, List.reverse_reverse]

theorem pyStrip_eq_nil_of_allWS {t : List Char} (h : ∀ c ∈ t, isPyWS c = true) :
    pyStrip t = [] := by
  unfold pyStrip
  rw [List.dropWhile_eq_nil_iff.mpr h]
  rfl

theorem allWS_of_pyStrip_eq_nil {t : List Char} (h : pyStrip t = []) :
    ∀ c ∈ t, isPyWS c = true := by
  unfold pyStrip at h
  rw [List.reverse_eq_nil_iff] at h
  have h3 := List.dropWhile_eq_nil_iff.mp h
  have h4 : ∀ c ∈ t.dropWhile isPyWS, isPyWS c = true := fun c hc =>
    h3 c (List.mem_reverse.mpr hc)
  intro c hc
  rw [← List.takeWhile_append_dropWhile isPyWS t] at hc
  rcases List.mem_append.mp hc with h5 | h5
  · exact List.mem_takeWhile_imp h5
  · exact h4 c h5

/-! ## Fixed-point lemmas for `cleanVietnameseText` -/

theorem cleanVietnameseText_eq (t : List Char) :
    cleanVietnameseText t =
      pyStrip (pyReplace [' ', ' '] [' ']
        (pyReplace ['.', '.', '.'] ['…']
          (pyReplace ['–'] ['—']
            (pyReplace weirdKey [apos]
              (pyReplace ['"'] ['"'] t))))) := rfl

theorem triple_space_infix_weirdKey : [' ', ' ', ' '] <:+: weirdKey := by decide

theorem double_space_infix_weirdKey : [' ', ' '] <:+: weirdKey := by decide

theorem quote_mem_weirdKey : '"' ∈ weirdKey := by decide

theorem not_triple_space_pyReplace_endash {t : List Char}
    (h : ¬ ([' ', ' ', ' '] <:+: t)) :
    ¬ ([' ', ' ', ' '] <:+: pyReplace ['–'] ['—'] t) := by
  rw [pyReplace_single]
  intro hx
  apply h
  have hf : ∀ c : Char, (if c = '–' then '—' else c) = ' ' ↔ c = ' ' := by
    intro c
    by_cases hc : c = '–' <;> simp [hc]
  have := infix_spaces_map hf 3 t (by simpa using hx)
  simpa using this

/-- On input with no run of three consecutive spaces, one application of
`clean_vietnamese_text` reaches a fixed point: the cleaned text contains
no en-dash, no `...`, no double space, none of the other table keys, and is
already stripped, so no substitution triggers on it. -/
theorem cleanVietnameseText_fixed (t : List Char) (h : ¬ ([' ', ' ', ' '] <:+: t)) :
    cleanVietnameseText (cleanVietnameseText t) = cleanVietnameseText t := by
  have hw : ¬ (weirdKey <:+: t) := fun hx => h (triple_space_infix_weirdKey.trans hx)
  have hstage : cleanVietnameseText t =
      pyStrip (pyReplace [' ', ' '] [' ']
        (pyReplace ['.', '.', '.'] ['…'] (pyReplace ['–'] ['—'] t))) := by
    rw [cleanVietnameseText_eq, pyReplace_single_self,
      pyReplace_eq_self_of_not_occ _ t hw]
  set w3 := pyReplace ['–'] ['—'] t with hw3
  set w4 := pyReplace ['.', '.', '.'] ['…'] w3 with hw4
  set w5 := pyReplace [' ', ' '] [' '] w4 with hw5
  set u := pyStrip w5 with hu
  -- facts about the cleaned text u
  have hnd : '–' ∉ u := by
    intro hmem
    have h1 : '–' ∈ w5 := (pyStrip_occurs_in w5).subset hmem
    rcases mem_pyReplace _ _ w4 '–' h1 with h2 | h2
    · rcases mem_pyReplace _ _ w3 '–' h2 with h3 | h3
      · exact not_mem_pyReplace_single (by decide) t h3
      · simp at h3
    · simp at h2
  have h3sp_w4 : ¬ ([' ', ' ', ' '] <:+: w4) := fun hx =>
    not_triple_space_pyReplace_endash h (infix_spaces_of_pyReplace_dots w3 hx)
  have h2sp_u : ¬ ([' ', ' '] <:+: u) := fun hx =>
    not_double_space_pyReplace_sp w4 h3sp_w4 (hx.trans (pyStrip_occurs_in w5))
  have hdots_u : ¬ (['.', '.', '.'] <:+: u) := fun hx =>
    not_infix_dots_pyReplace_dots w3
      (infix_dots_of_pyReplace_sp w4 (hx.trans (pyStrip_occurs_in w5)))
  have hweird_u : ¬ (weirdKey <:+: u) := fun hx =>
    h2sp_u (double_space_infix_weirdKey.trans hx)
  -- the second application is the identity on u
  have hclean_u : cleanVietnameseText u = u := by
    rw [cleanVietnameseText_eq, pyReplace_single_self,
      pyReplace_eq_self_of_not_occ _ u hweird_u,
      pyReplace_eq_self_of_not_occ _ u
        (fun hx => hnd (singleton_infix_iff_mem.mp hx)),
      pyReplace_eq_self_of_not_occ _ u hdots_u,
      pyReplace_eq_self_of_not_occ _ u h2sp_u,
      hu, pyStrip_pyStrip]
  rw [hstage]
  exact hclean_u

/-- A whitespace-only row cleans to the empty string: no replacement
pattern other than the double space can occur in it, the double-space pass
only produces spaces, and the final strip removes everything. -/
theorem cleanVietnameseText_allWS {t : List Char} (h : ∀ c ∈ t, isPyWS c = true) :
    cleanVietnameseText t = [] := by
  rw [cleanVietnameseText_eq, pyReplace_single_self]
  have hq : ¬ (weirdKey <:+: t) := fun hx =>
    absurd (h '"' (hx.subset quote_mem_weirdKey)) (by decide)
  rw [pyReplace_eq_self_of_not_occ _ t hq]
  have hen : ¬ (['–'] <:+: t) := fun hx =>
    absurd (h '–' (singleton_infix_iff_mem.mp hx)) (by decide)
  rw [pyReplace_eq_self_of_not_occ _ t hen]
  have hdot : ¬ (['.', '.', '.'] <:+: t) := fun hx =>
    absurd (h '.' (hx.subset (by decide))) (by decide)
  rw [pyReplace_eq_self_of_not_occ _ t hdot]
  apply pyStrip_eq_nil_of_allWS
  intro c hc
  rcases mem_pyReplace _ _ t c hc with h1 | h1
  · exact h c h1
  · simp at h1
    rw [h1]; decide

/-! ## Lemmas about the scheduler's dict -/

theorem lookup_map_overwrite (k : String) (v : List Char) (q : String) (hqk : q ≠ k) :
    ∀ m : ResultsDict,
      List.lookup q (m.map fun e => if e.1 == k then (k, v) else e) = List.lookup q m := by
  intro m
  induction m with
  | nil => rfl
  | cons e m ih =>
    rw [List.map_cons]
    cases hek : e.1 == k with
    | true =>
      simp only [hek, if_true]
      have h1 : (q == e.1) = false := by
        rw [eq_of_beq hek]
        exact beq_false_of_ne hqk
      rw [List.lookup, List.lookup]
      have h2 : (q == k) = false := beq_false_of_ne hqk
      rw [h2, h1]
      exact ih
    | false =>
      simp only [Bool.false_eq_true, if_false]
      rw [List.lookup, List.lookup]
      cases hqe : q == e.1 with
      | true => rfl
      | false => exact ih

theorem lookup_map_overwrite_self (k : String) (v : List Char) :
    ∀ m : ResultsDict, m.any (fun e => e.1 == k) = true →
      List.lookup k (m.map fun e => if e.1 == k then (k, v) else e) = some v := by
  intro m
  induction m with
  | nil => intro h; simp at h
  | cons e m ih =>
    intro h
    rw [List.map_cons]
    cases hek : e.1 == k with
    | true =>
      simp only [hek, if_true]
      rw [List.lookup]
      simp
    | false =>
      simp only [Bool.false_eq_true, if_false]
      rw [List.lookup]
      have hke : (k == e.1) = false := by
        cases hke : k == e.1 with
        | true => rw [eq_of_beq hke] at hek; simp at hek
        | false => rfl
      rw [hke]
      apply ih
      rcases List.any_eq_true.mp h with ⟨x, hx1, hx2⟩
      rcases List.mem_cons.mp hx1 with h3 | h3
      · rw [← h3] at hek; rw [hek] at hx2; cases hx2
      · exact List.any_eq_true.mpr ⟨x, h3, hx2⟩

theorem lookup_append_single (q k : String) (v : List Char) (m : ResultsDict) :
    List.lookup q (m ++ [(k, v)]) =
      match List.lookup q m with
      | some w => some w
      | none => if q == k then some v else none := by
  induction m with
  | nil => cases hqk : q == k <;> simp [List.lookup, hqk]
  | cons e m ih =>
    rw [List.cons_append, List.lookup, List.lookup]
    cases hqe : q == e.1 with
    | true => rfl
    | false => exact ih

theorem any_key_of_lookup (q : String) (w : List Char) :
    ∀ m : ResultsDict, List.lookup q m = some w → m.any (fun e => e.1 == q) = true := by
  intro m
  induction m with
  | nil => intro h; cases h
  | cons e m ih =>
    intro h
    rw [List.lookup] at h
    cases hqe : q == e.1 with
    | true =>
      apply List.any_eq_true.mpr
      refine ⟨e, List.mem_cons_self e m, ?_⟩
      rw [eq_of_beq hqe]
      simp
    | false =>
      rw [hqe] at h
      rw [List.any_cons, ih h]
      simp

theorem lookup_dictInsert (m : ResultsDict) (k : String) (v : List Char) (q : String) :
    List.lookup q (dictInsert m k v) = if q = k then some v else List.lookup q m := by
  unfold dictInsert
  rcases Bool.eq_false_or_eq_true (m.any (fun e => e.1 == k)) with hany | hany
  · rw [if_pos hany]
    by_cases hqk : q = k
    · subst hqk
      rw [if_pos rfl]
      exact lookup_map_overwrite_self q v m hany
    · rw [if_neg hqk]
      exact lookup_map_overwrite k v q hqk m
  · rw [if_neg (by rw [hany]; exact Bool.false_ne_true), lookup_append_single]
    by_cases hqk : q = k
    · subst hqk
      rw [if_pos rfl]
      have hnone : List.lookup q m = none := by
        cases hl : List.lookup q m with
        | none => rfl
        | some w =>
          rw [any_key_of_lookup q w m hl] at hany
          cases hany
      rw [hnone]
      simp
    · rw [if_neg hqk]
      cases hl : List.lookup q m with
      | some w => rfl
      | none => simp [beq_false_of_ne hqk]

theorem any_key_iff_mem_keys (m : ResultsDict) (k : String) :
    m.any (fun e => e.1 == k) = true ↔ k ∈ m.map Prod.fst := by
  rw [List.any_eq_true]
  constructor
  · rintro ⟨e, he, heq⟩
    exact List.mem_map.mpr ⟨e, he, eq_of_beq heq⟩
  · intro hk
    rcases List.mem_map.mp hk with ⟨e, he, heq⟩
    exact ⟨e, he, by simp [heq]⟩

theorem keys_dictInsert (m : ResultsDict) (k : String) (v : List Char) :
    (dictInsert m k v).map Prod.fst =
      if m.any (fun e => e.1 == k) = true then m.map Prod.fst
      else m.map Prod.fst ++ [k] := by
  unfold dictInsert
  rcases Bool.eq_false_or_eq_true (m.any fun e => e.1 == k) with hany | hany
  · rw [if_pos hany, if_pos hany, List.map_map]
    apply List.map_congr_left
    intro e _
    by_cases hek : (e.1 == k) = true
    · simp only [Function.comp_apply, hek, if_true]
      exact (eq_of_beq hek).symm
    · have hne : ¬ e.1 = k := fun hx => hek (by simp [hx])
      simp [hne]
  · rw [if_neg (by rw [hany]; exact Bool.false_ne_true),
      if_neg (by rw [hany]; exact Bool.false_ne_true)]
    simp

theorem nodup_keys_dictInsert (m : ResultsDict) (k : String) (v : List Char)
    (h : (m.map Prod.fst).Nodup) : ((dictInsert m k v).map Prod.fst).Nodup := by
  rw [keys_dictInsert]
  rcases Bool.eq_false_or_eq_true (m.any fun e => e.1 == k) with hany | hany
  · rw [if_pos hany]; exact h
  · rw [if_neg (by rw [hany]; exact Bool.false_ne_true)]
    refine h.append (List.nodup_singleton k) ?_
    intro a ha hb
    rw [List.mem_singleton.mp hb] at ha
    rw [(any_key_iff_mem_keys m k).mpr ha] at hany
    cases hany

theorem recordResult_none (m : ResultsDict) (s : String) : recordResult m s none = m := rfl

theorem recordResult_some (m : ResultsDict) (s : String) (v : List Char) :
    recordResult m s (some v) = if v.isEmpty = true then m else dictInsert m s v := rfl

theorem nodup_keys_recordResult (m : ResultsDict) (s : String) (r : Option (List Char))
    (h : (m.map Prod.fst).Nodup) : ((recordResult m s r).map Prod.fst).Nodup := by
  cases r with
  | none => exact h
  | some v =>
    rw [recordResult_some]
    rcases Bool.eq_false_or_eq_true v.isEmpty with hv | hv
    · rw [if_pos hv]; exact h
    · rw [if_neg (by rw [hv]; exact Bool.false_ne_true)]
      exact nodup_keys_dictInsert m s v h

theorem nodup_keys_collect_aux (proc : String → Option (List Char)) :
    ∀ (order : List String) (m : ResultsDict), (m.map Prod.fst).Nodup →
      ((order.foldl (fun acc s => recordResult acc s (proc s)) m).map Prod.fst).Nodup := by
  intro order
  induction order with
  | nil => intro m h; exact h
  | cons s rest ih =>
    intro m h
    exact ih _ (nodup_keys_recordResult m s (proc s) h)

theorem nodup_keys_collectResults (proc : String → Option (List Char))
    (order : List String) : ((collectResults proc order).map Prod.fst).Nodup :=
  nodup_keys_collect_aux proc order [] (by simp)

theorem lookup_recordResult (m : ResultsDict) (s : String) (r : Option (List Char))
    (q : String) :
    List.lookup q (recordResult m s r) =
      if q = s ∧ truthyResult r = true then r else List.lookup q m := by
  cases r with
  | none => simp [recordResult_none, truthyResult]
  | some v =>
    rw [recordResult_some]
    rcases Bool.eq_false_or_eq_true v.isEmpty with hv | hv
    · rw [if_pos hv]
      have ht : truthyResult (some v) = false := by simp [truthyResult, hv]
      rw [ht]
      simp
    · rw [if_neg (by rw [hv]; exact Bool.false_ne_true), lookup_dictInsert]
      have ht : truthyResult (some v) = true := by simp [truthyResult, hv]
      rw [ht]
      by_cases hqs : q = s
      · subst hqs
        rw [if_pos rfl, if_pos ⟨rfl, rfl⟩]
      · rw [if_neg hqs, if_neg (fun hx => hqs hx.1)]

theorem lookup_collect_aux (proc : String → Option (List Char)) (q : String) :
    ∀ (order : List String) (m : ResultsDict),
      List.lookup q (order.foldl (fun acc s => recordResult acc s (proc s)) m) =
        if q ∈ order ∧ truthyResult (proc q) = true then proc q
        else List.lookup q m := by
  intro order
  induction order with
  | nil => intro m; simp
  | cons s rest ih =>
    intro m
    rw [List.foldl_cons, ih]
    by_cases hmem : q ∈ rest ∧ truthyResult (proc q) = true
    · rw [if_pos hmem, if_pos ⟨List.mem_cons_of_mem s hmem.1, hmem.2⟩]
    · rw [if_neg hmem, lookup_recordResult]
      by_cases hqs : q = s
      · subst hqs
        by_cases htr : truthyResult (proc q) = true
        · rw [if_pos ⟨rfl, htr⟩, if_pos ⟨List.mem_cons_self q rest, htr⟩]
        · rw [if_neg (fun hx => htr hx.2), if_neg (fun hx => htr hx.2)]
      · rw [if_neg (fun hx => hqs hx.1)]
        have h2 : ¬ (q ∈ s :: rest ∧ truthyResult (proc q) = true) := by
          rintro ⟨h2a, h2b⟩
          rcases List.mem_cons.mp h2a with h3 | h3
          · exact hqs h3
          · exact hmem ⟨h3, h2b⟩
        rw [if_neg h2]

theorem lookup_collectResults (proc : String → Option (List Char)) (order : List String)
    (q : String) :
    List.lookup q (collectResults proc order) =
      if q ∈ order ∧ truthyResult (proc q) = true then proc q else none := by
  unfold collectResults
  rw [lookup_collect_aux]
  rfl

theorem lookup_processSheetsParallel (sheets : List String)
    (proc : String → Option (List Char)) (π : List String) (hπ : π.Perm sheets)
    (q : String) :
    List.lookup q (processSheetsParallel sheets proc π).results =
      if q ∈ sheets ∧ truthyResult (proc q) = true then proc q else none := by
  rcases Bool.eq_false_or_eq_true sheets.isEmpty with hs | hs
  · have hnil : sheets = [] := List.isEmpty_iff.mp hs
    subst hnil
    simp [processSheetsParallel, List.lookup]
  · have h1 : processSheetsParallel sheets proc π =
        ⟨true, collectResults proc π⟩ := by
      unfold processSheetsParallel
      rw [if_neg (by rw [hs]; exact Bool.false_ne_true)]
    rw [h1, lookup_collectResults]
    simp only [hπ.mem_iff]

theorem preparePdfFiles_runAll (sheets : List String)
    (proc : String → Option (List Char)) (π : List String) (hπ : π.Perm sheets) :
    preparePdfFiles sheets (processSheetsParallel sheets proc π).results =
      sheets.filterMap (fun s => truthyOpt (proc s)) := by
  unfold preparePdfFiles
  apply List.filterMap_congr
  intro s hs
  rw [lookup_processSheetsParallel sheets proc π hπ s]
  cases hp : proc s with
  | none =>
    rw [if_neg (fun hx => absurd hx.2 (by decide))]
    simp [truthyOpt]
  | some v =>
    rcases Bool.eq_false_or_eq_true v.isEmpty with hv | hv
    · rw [if_neg (fun hx => by simp [truthyResult, hv] at hx)]
      simp [truthyOpt, hv]
    · rw [if_pos ⟨hs, by simp [truthyResult, hv]⟩]
      simp [truthyOpt, hv]

theorem mergeSheetsToEbook_all_exist (pdfFiles : List (List Char)) :
    mergeSheetsToEbook (fun _ => true) pdfFiles =
      if pdfFiles.isEmpty then none else some (pdfFiles.map extractChapterName) := by
  unfold mergeSheetsToEbook
  rw [List.filter_true]
  rcases Bool.eq_false_or_eq_true pdfFiles.isEmpty with hL | hL
  · rw [if_pos hL, if_pos hL]
  · rw [if_neg (by rw [hL]; exact Bool.false_ne_true),
      if_neg (by rw [hL]; exact Bool.false_ne_true)]

/-! ## Claim theorems -/

/-- Claim C1 (status: code_bug).  The multi-sheet path of `main` calls
`thread_manager.estimate_processing_time` (main.py line 192), but
`ThreadManager` defines no such attribute, so every run that requests more
than one sheet raises `AttributeError`, is caught by the outer
`except Exception`, and exits with code 1 — it never reaches the scheduler,
the merge, or the "2/3 sheets" summary the claim (and spec §8) promise. -/
theorem c1_multisheet_run_aborts (sheetsToProcess : List String)
    (proc : String → Option (List Char)) (π : List String)
    (fileExists : List Char → Bool) (mergedPath : String) (mergedExists : Bool)
    (mergedSize : Nat) (numPagesIntro : Option Nat)
    (h : 1 < sheetsToProcess.length) :
    mainRun sheetsToProcess proc π fileExists mergedPath mergedExists mergedSize
      numPagesIntro = 1 := by
  unfold mainRun
  have hne : sheetsToProcess.isEmpty = false := by
    cases hx : sheetsToProcess.isEmpty with
    | false => rfl
    | true => rw [List.isEmpty_iff.mp hx] at h; simp at h
  rw [if_neg (by rw [hne]; exact Bool.false_ne_true)]
  rw [if_pos ⟨h, by decide⟩]

/-- Witness for C1: the concrete partial-failure scenario of the claim —
sheets A, B, C requested, the reader returns no rows for B, tasks complete
in the order B, C, A — exits with code 1, not 0. -/
theorem c1_witness :
    mainRun ["A", "B", "C"]
      (processSingleSheet
        (fun s => if s = "B" then []
          else [['l', 'o', 'n', 'g', ' ', 'e', 'n', 'o', 'u', 'g', 'h']])
        (fun s _ => some (s.toList ++ ['.', 'p', 'd', 'f'])))
      ["B", "C", "A"] (fun _ => true) "vietnamese-ebook.pdf" true 4096 (some 12) = 1 :=
  c1_multisheet_run_aborts _ _ _ _ _ _ _ _ (by decide)

/-- Claim C2 (status: corrected), counterexample: a submitted sheet task
("B") whose reader yields zero rows completes as a failure, but the
scheduler's result mapping records NO outcome under "B" — the claim's
"the mapping records an outcome for every completed task" is false. -/
theorem c2_counterexample :
    List.lookup "B" (processSheetsParallel ["B"]
      (processSingleSheet (fun _ => []) (fun _ _ => some ['p'])) ["B"]).results
      = none := rfl

/-- Claim C2 (amended): every failure inside a sheet task (empty read,
zero surviving blocks, generator failure or exception) is converted to
`None` at the task boundary and never unwinds past the scheduler, but the
result mapping records an entry exactly for the tasks whose outcome was a
truthy (non-empty) value: failed sheets are simply absent from it. -/
theorem c2_scheduler_records_only_successes (sheets : List String)
    (readColumnD : String → List (List Char))
    (gen : String → List ContentBlock → Option (List Char))
    (π : List String) (hπ : π.Perm sheets) (q : String) (v : List Char) :
    (List.lookup q (processSheetsParallel sheets
        (processSingleSheet readColumnD gen) π).results = some v ↔
      q ∈ sheets ∧ processSingleSheet readColumnD gen q = some v ∧ v ≠ []) ∧
    (readColumnD q = [] → processSingleSheet readColumnD gen q = none) := by
  constructor
  · rw [lookup_processSheetsParallel _ _ _ hπ]
    constructor
    · intro hl
      by_cases hc : q ∈ sheets ∧
          truthyResult (processSingleSheet readColumnD gen q) = true
      · rcases hc with ⟨hc1, hc2⟩
        rw [if_pos ⟨hc1, hc2⟩] at hl
        refine ⟨hc1, hl, ?_⟩
        rw [hl] at hc2
        simp [truthyResult] at hc2
        exact hc2
      · rw [if_neg hc] at hl; cases hl
    · rintro ⟨h1, h2, h3⟩
      have ht : truthyResult (processSingleSheet readColumnD gen q) = true := by
        rw [h2]
        simp [truthyResult, h3]
      rw [if_pos ⟨h1, ht⟩, h2]
  · intro hr
    simp [processSingleSheet, hr]

/-- Witness for C2: concrete two-sheet run where A succeeds and B's read is
empty. -/
theorem c2_witness :
    (List.lookup "B" (processSheetsParallel ["A", "B"]
        (processSingleSheet
          (fun s => if s = "B" then []
            else [['l', 'o', 'n', 'g', ' ', 'e', 'n', 'o', 'u', 'g', 'h']])
          (fun _ _ => some ['p'])) ["B", "A"]).results = some ['p'] ↔
      "B" ∈ ["A", "B"] ∧ processSingleSheet
          (fun s => if s = "B" then []
            else [['l', 'o', 'n', 'g', ' ', 'e', 'n', 'o', 'u', 'g', 'h']])
          (fun _ _ => some ['p']) "B" = some ['p'] ∧ (['p'] : List Char) ≠ []) ∧
    ((fun s => if s = "B" then ([] : List (List Char))
        else [['l', 'o', 'n', 'g', ' ', 'e', 'n', 'o', 'u', 'g', 'h']]) "B" = [] →
      processSingleSheet
        (fun s => if s = "B" then []
          else [['l', 'o', 'n', 'g', ' ', 'e', 'n', 'o', 'u', 'g', 'h']])
        (fun _ _ => some ['p']) "B" = none) :=
  c2_scheduler_records_only_successes ["A", "B"] _ _ ["B", "A"] (by decide) "B" ['p']

/-- Claim C3 (status: corrected), counterexample: duplicate sheet names do
NOT collapse to a single submitted task — the `future_to_sheet` dict
comprehension calls `executor.submit` once per list element, so the input
["A", "A"] submits 2 tasks while having 1 distinct name. -/
theorem c3_counterexample :
    (futureToSheet ["A", "A"]).length = 2 ∧ (["A", "A"] : List String).dedup.length = 1 ∧
    (futureToSheet ["A", "A"]).length ≠ (["A", "A"] : List String).dedup.length := by
  refine ⟨by decide, by decide, by decide⟩

/-- Claim C3 (amended): for every sheet-name sequence (duplicates and the
empty sequence included) the scheduler terminates and returns a mapping
whose keys all come from the input, with at most one entry per sheet name
(duplicate names collapse to one mapping entry, though each duplicate still
submits its own task); the empty sequence returns an empty mapping
immediately with no pool created. -/
theorem c3_scheduler_mapping (sheets : List String)
    (proc : String → Option (List Char)) (π : List String) (hπ : π.Perm sheets) :
    (∀ q v, List.lookup q (processSheetsParallel sheets proc π).results = some v →
        q ∈ sheets) ∧
    ((processSheetsParallel sheets proc π).results.map Prod.fst).Nodup ∧
    (sheets = [] → processSheetsParallel sheets proc π = ⟨false, []⟩) := by
  refine ⟨?_, ?_, ?_⟩
  · intro q v hqv
    rw [lookup_processSheetsParallel sheets proc π hπ q] at hqv
    by_cases hc : q ∈ sheets ∧ truthyResult (proc q) = true
    · exact hc.1
    · rw [if_neg hc] at hqv; cases hqv
  · rcases Bool.eq_false_or_eq_true sheets.isEmpty with hs | hs
    · have hnil : sheets = [] := List.isEmpty_iff.mp hs
      subst hnil
      simp [processSheetsParallel]
    · have h1 : processSheetsParallel sheets proc π =
          ⟨true, collectResults proc π⟩ := by
        unfold processSheetsParallel
        rw [if_neg (by rw [hs]; exact Bool.false_ne_true)]
      rw [h1]
      exact nodup_keys_collectResults proc π
  · intro hnil
    subst hnil
    rfl

/-- Witness for C3: a concrete two-sheet run, completion order reversed. -/
theorem c3_witness :
    (∀ q v, List.lookup q (processSheetsParallel ["A", "B"]
        (fun s => if s = "A" then some ['a'] else none) ["B", "A"]).results = some v →
      q ∈ ["A", "B"]) ∧
    ((processSheetsParallel ["A", "B"] (fun s => if s = "A" then some ['a'] else none)
        ["B", "A"]).results.map Prod.fst).Nodup ∧
    ((["A", "B"] : List String) = [] → processSheetsParallel ["A", "B"]
        (fun s => if s = "A" then some ['a'] else none) ["B", "A"] = ⟨false, []⟩) :=
  c3_scheduler_mapping ["A", "B"] _ ["B", "A"] (by decide)

/-- Claim C4 (status: confirmed): the list of PDFs main hands to the merger
is the requested sheet order restricted to truthy task outcomes —
independent of the completion order `π` — and the merged ebook's chapter
order is exactly that list's chapter names in that order. -/
theorem c4_merge_order_requested (sheets : List String)
    (proc : String → Option (List Char)) (π : List String) (hπ : π.Perm sheets) :
    preparePdfFiles sheets (processSheetsParallel sheets proc π).results =
      sheets.filterMap (fun s => truthyOpt (proc s)) ∧
    mergeSheetsToEbook (fun _ => true)
        (preparePdfFiles sheets (processSheetsParallel sheets proc π).results) =
      (if (sheets.filterMap (fun s => truthyOpt (proc s))).isEmpty then none
       else some ((sheets.filterMap (fun s => truthyOpt (proc s))).map
         extractChapterName)) := by
  have h1 := preparePdfFiles_runAll sheets proc π hπ
  refine ⟨h1, ?_⟩
  rw [h1, mergeSheetsToEbook_all_exist]

/-- Witness for C4: the claim's scenario — requested order [A, B, C],
completion order B, C, A, all three succeed — still merges chapters in the
order A, B, C. -/
theorem c4_witness :
    mergeSheetsToEbook (fun _ => true)
      (preparePdfFiles ["A", "B", "C"]
        (processSheetsParallel ["A", "B", "C"]
          (fun s => if s = "A" then some ['A', '.', 'p', 'd', 'f']
            else if s = "B" then some ['B', '.', 'p', 'd', 'f']
            else some ['C', '.', 'p', 'd', 'f'])
          ["B", "C", "A"]).results) =
      some [['A'], ['B'], ['C']] := by
  rw [(c4_merge_order_requested ["A", "B", "C"]
    (fun s => if s = "A" then some ['A', '.', 'p', 'd', 'f']
      else if s = "B" then some ['B', '.', 'p', 'd', 'f']
      else some ['C', '.', 'p', 'd', 'f'])
    ["B", "C", "A"] (by decide)).2]
  decide

/-- Claim C5 (status: corrected), counterexample: the cleaning step is not
idempotent.  The entry `'  ' ↦ ' '` of the replacement table only halves a
run of spaces per pass (Python `str.replace` is non-overlapping), so a run
of three spaces cleans to two spaces, which a second pass collapses
further. -/
theorem c5_counterexample :
    cleanVietnameseText ['a', ' ', ' ', ' ', 'b'] = ['a', ' ', ' ', 'b'] ∧
    cleanVietnameseText (cleanVietnameseText ['a', ' ', ' ', ' ', 'b']) =
      ['a', ' ', 'b'] ∧
    cleanVietnameseText (cleanVietnameseText ['a', ' ', ' ', ' ', 'b']) ≠
      cleanVietnameseText ['a', ' ', ' ', ' ', 'b'] := by
  refine ⟨by decide, by decide, by decide⟩

/-- Claim C5 (amended): the cleaning step is idempotent on every input that
contains no run of three consecutive spaces; on such input no substitution
of the replacement table triggers on the already-cleaned text and the text
is already stripped. -/
theorem c5_clean_idempotent_no_triple_space (t : List Char)
    (h : ¬ ([' ', ' ', ' '] <:+: t)) :
    cleanVietnameseText (cleanVietnameseText t) = cleanVietnameseText t :=
  cleanVietnameseText_fixed t h

/-- Witness for C5: an input with a double space (no triple), with fancy
punctuation that the table rewrites. -/
theorem c5_witness :
    ¬ ([' ', ' ', ' '] <:+: ['a', ' ', ' ', '–', '.', '.', '.', 'b']) ∧
    cleanVietnameseText (cleanVietnameseText ['a', ' ', ' ', '–', '.', '.', '.', 'b']) =
      cleanVietnameseText ['a', ' ', ' ', '–', '.', '.', '.', 'b'] :=
  ⟨by decide,
    c5_clean_idempotent_no_triple_space ['a', ' ', ' ', '–', '.', '.', '.', 'b'] (by decide)⟩

/-- Claim C6 (status: corrected), counterexample: the worker-pool default
is `min(os.cpu_count() or 4, 6)` — the number of requested sheets plays no
role.  With 1 requested sheet on an 8-way machine the claim's formula gives
`min(1, 8, 6) = 1`, but the constructor yields 6. -/
theorem c6_counterexample :
    threadManagerMaxWorkers none (some 8) = 6 ∧
    min 1 (min 8 6) = 1 ∧
    threadManagerMaxWorkers none (some 8) ≠ min 1 (min 8 6) := by
  refine ⟨by decide, by decide, by decide⟩

/-- Claim C6 (amended): with no override the pool size is
`min(available parallelism, 6)` (4 when the CPU count is unknown),
which is at least 1; an explicit override is taken verbatim; the requested
sheet count is not consulted. -/
theorem c6_pool_size (c n : Nat) (hc : 0 < c) :
    threadManagerMaxWorkers none (some c) = min c 6 ∧
    1 ≤ threadManagerMaxWorkers none (some c) ∧
    threadManagerMaxWorkers (some n) (some c) = n ∧
    threadManagerMaxWorkers none none = 4 := by
  have h1 : pyOrNat (some c) 4 = c := by
    cases c with
    | zero => exact absurd hc (lt_irrefl 0)
    | succ m => rfl
  refine ⟨?_, ?_, rfl, rfl⟩
  · show min (pyOrNat (some c) 4) 6 = min c 6
    rw [h1]
  · show 1 ≤ min (pyOrNat (some c) 4) 6
    rw [h1]
    omega

/-- Witness for C6: 8 CPUs, override 3. -/
theorem c6_witness :
    threadManagerMaxWorkers none (some 8) = min 8 6 ∧
    1 ≤ threadManagerMaxWorkers none (some 8) ∧
    threadManagerMaxWorkers (some 3) (some 8) = 3 ∧
    threadManagerMaxWorkers none none = 4 :=
  c6_pool_size 8 3 (by decide)

/-- Claim C7 (status: confirmed): a raw row whose cleaned text is shorter
than `paragraph_min_length` produces no content block (its index appears in
no block, and nothing else is emitted for it — the function has no error
channel), while a cleaned text of exactly the minimum length produces a
block carrying that cleaned text. -/
theorem c7_min_length_discard (rows : List (List Char)) (i : Nat)
    (h : i < rows.length) :
    ((cleanVietnameseText rows[i]).length < paragraphMinLength →
      ∀ b ∈ processSheetContent rows, b.originalIndex ≠ i) ∧
    ((cleanVietnameseText rows[i]).length = paragraphMinLength →
      ∃ b ∈ processSheetContent rows,
        b.originalIndex = i ∧ b.content = cleanVietnameseText rows[i]) := by
  constructor
  · intro hlt b hb hbi
    rcases List.mem_filterMap.mp hb with ⟨⟨j, raw⟩, hmem, heq⟩
    simp only at heq
    split at heq
    · cases heq
    · split at heq
      · cases heq
      · rename_i hguard hlen
        injection heq with heqb
        have hj : b.originalIndex = j := by rw [← heqb]
        have hji : j = i := by rw [← hj]; exact hbi
        subst hji
        have hraw : rows[j]? = some raw := by
          simpa using List.mem_enum_iff_getElem?.mp hmem
        rw [List.getElem?_eq_getElem h] at hraw
        injection hraw with hraw
        rw [hraw] at hlt
        exact hlen hlt
  · intro hlen
    have hne : cleanVietnameseText rows[i] ≠ [] := by
      intro hx
      rw [hx] at hlen
      simp [paragraphMinLength] at hlen
    have hnws : ¬ (∀ c ∈ rows[i], isPyWS c = true) := fun hws =>
      hne (cleanVietnameseText_allWS hws)
    have hmem : (i, rows[i]) ∈ rows.enum :=
      List.mem_enum_iff_getElem?.mpr (by simp [List.getElem?_eq_getElem h])
    refine ⟨⟨detectContentType (cleanVietnameseText rows[i]),
      cleanVietnameseText rows[i], i, rows[i].length⟩,
      List.mem_filterMap.mpr ⟨(i, rows[i]), hmem, ?_⟩, rfl, rfl⟩
    have hg1a : rows[i].isEmpty = false := by
      cases hx : rows[i].isEmpty with
      | false => rfl
      | true =>
        exfalso
        apply hnws
        intro c hc
        rw [List.isEmpty_iff.mp hx] at hc
        cases hc
    have hg1b : (pyStrip rows[i]).isEmpty = false := by
      cases hx : (pyStrip rows[i]).isEmpty with
      | false => rfl
      | true =>
        exact absurd (allWS_of_pyStrip_eq_nil (List.isEmpty_iff.mp hx)) hnws
    simp only [hg1a, hg1b, Bool.or_self, Bool.false_eq_true, if_false, hlen]
    rw [if_neg (lt_irrefl paragraphMinLength)]

/-- Witness for C7: a two-row sheet — a 3-character row (dropped) and a
10-character row (kept at the boundary). -/
theorem c7_witness :
    (∀ b ∈ processSheetContent
        [['a', 'b', 'c'], ['a', 'b', 'c', 'd', 'e', 'f', 'g', 'h', 'i', 'j']],
      b.originalIndex ≠ 0) ∧
    (∃ b ∈ processSheetContent
        [['a', 'b', 'c'], ['a', 'b', 'c', 'd', 'e', 'f', 'g', 'h', 'i', 'j']],
      b.originalIndex = 1 ∧
        b.content = cleanVietnameseText ['a', 'b', 'c', 'd', 'e', 'f', 'g', 'h', 'i', 'j']) :=
  ⟨(c7_min_length_discard _ 0 (by decide)).1 (by decide),
    (c7_min_length_discard _ 1 (by decide)).2 (by decide)⟩

/-- Claim C8 (status: confirmed): a string whose stripped form starts with a
quotation mark — even one that is entirely upper-case — classifies as
dialog and never as header: the dialog test precedes the header test in
`detect_content_type`. -/
theorem c8_quote_upper_is_dialog (text : List Char)
    (h1 : List.isPrefixOf ['"'] (pyStrip text) = true)
    (h2 : pyIsUpper (pyStrip text) = true) :
    detectContentType text = .dialog ∧ detectContentType text ≠ .header := by
  have hne : text.isEmpty = false := by
    cases hx : text.isEmpty with
    | false => rfl
    | true =>
      rw [List.isEmpty_iff.mp hx] at h1
      cases h1
  have hd : detectContentType text = .dialog := by
    simp [detectContentType, hne, h1]
  exact ⟨hd, by rw [hd]; intro hx; cases hx⟩

/-- Witness for C8: the all-uppercase quoted string `"AB"`. -/
theorem c8_witness :
    List.isPrefixOf ['"'] (pyStrip ['"', 'A', 'B', '"']) = true ∧
    pyIsUpper (pyStrip ['"', 'A', 'B', '"']) = true ∧
    detectContentType ['"', 'A', 'B', '"'] = .dialog ∧
    detectContentType ['"', 'A', 'B', '"'] ≠ .header :=
  ⟨by decide, by decide,
    (c8_quote_upper_is_dialog ['"', 'A', 'B', '"'] (by decide) (by decide)).1,
    (c8_quote_upper_is_dialog ['"', 'A', 'B', '"'] (by decide) (by decide)).2⟩

/-- Claim C9 (status: corrected), counterexample: `_build_story` styles a
`header` block and a `paragraph` block with the SAME style object
(`BusinessBody`) — only dialog blocks get a distinct style, so the three
block kinds do not each receive a different style. -/
theorem c9_counterexample :
    styleNameForBlockType .header = styleNameForBlockType .paragraph ∧
    (buildStory "DejaVu" ['S', 'h', 'e', 'e', 't']
        [⟨.header, ['H', 'E', 'A', 'D'], 0, 4⟩,
         ⟨.paragraph, ['b', 'o', 'd', 'y'], 1, 4⟩]).map Prod.snd =
      [businessBody "DejaVu", businessBody "DejaVu"] := by
  refine ⟨rfl, by decide⟩

/-- Claim C9 (amended): the renderer distinguishes dialog blocks
(`BusinessDialog`) from all other blocks (`BusinessBody`, shared by
paragraph and header blocks); the chapter-title paragraph derived from the
sheet name gets the third, again distinct, `BusinessChapter` style.  The
three named styles are pairwise distinct objects for every base font. -/
theorem c9_distinct_styles (baseFont : String) :
    businessDialog baseFont ≠ businessBody baseFont ∧
    businessChapter baseFont ≠ businessBody baseFont ∧
    businessChapter baseFont ≠ businessDialog baseFont ∧
    styleNameForBlockType .dialog = "BusinessDialog" ∧
    (∀ t : PyContentType, t ≠ .dialog → styleNameForBlockType t = "BusinessBody") ∧
    getStyle baseFont "BusinessDialog" = businessDialog baseFont ∧
    getStyle baseFont "BusinessBody" = businessBody baseFont ∧
    getStyle baseFont "BusinessChapter" = businessChapter baseFont := by
  refine ⟨?_, ?_, ?_, rfl, ?_, ?_, ?_, ?_⟩
  · intro h
    have h2 := congrArg PStyle.textColor h
    simp [businessDialog, businessBody] at h2
  · intro h
    have h2 := congrArg PStyle.fontSize h
    simp [businessChapter, businessBody] at h2
  · intro h
    have h2 := congrArg PStyle.fontSize h
    simp [businessChapter, businessDialog, businessBody] at h2
  · intro t ht
    unfold styleNameForBlockType
    rw [if_neg ht]
  · simp [getStyle]
  · simp [getStyle]
  · simp [getStyle]

/-- Claim C10 (status: confirmed): when the merged ebook exists and is
non-empty but page introspection raises, `get_ebook_stats` returns the
fallback dict with only `file_path`, `file_size_kb` and
`num_pages='Unknown'`; main's summary indexes the missing `file_size_mb`
and `title` keys, so the run exits 1 despite the valid merged ebook. -/
theorem c10_stats_fallback_breaks_summary (path : String) (size : Nat)
    (hs : 0 < size) :
    validateEbook true size = true ∧
    ∃ stats, getEbookStats path true size none = some stats ∧
      List.lookup "num_pages" stats = some (.str "Unknown") ∧
      List.lookup "file_size_mb" stats = none ∧
      List.lookup "title" stats = none ∧
      mainSummaryExit stats = 1 := by
  have hv : validateEbook true size = true := by
    simp [validateEbook, hs]
  refine ⟨hv, [("file_path", .str path), ("file_size_kb", .nat (size * 100 / 1024)),
    ("num_pages", .str "Unknown")], ?_, ?_, ?_, ?_, ?_⟩
  · unfold getEbookStats
    rw [hv]
    rfl
  · simp [List.lookup]
  · simp [List.lookup]
  · simp [List.lookup]
  · simp [mainSummaryExit, List.lookup]

/-- Witness for C10: a 2 KB merged ebook whose `PdfReader` call raises. -/
theorem c10_witness :
    validateEbook true 2048 = true ∧
    ∃ stats, getEbookStats "ebook.pdf" true 2048 none = some stats ∧
      List.lookup "num_pages" stats = some (.str "Unknown") ∧
      List.lookup "file_size_mb" stats = none ∧
      List.lookup "title" stats = none ∧
      mainSummaryExit stats = 1 :=
  c10_stats_fallback_breaks_summary "ebook.pdf" 2048 (by decide)

end VEbook
